import Mathlib

/-!
Shallow embedding of the Testoria test-automation framework's core
JavaScript modules (`src/core/clients/base_api_client.js`,
`src/core/assertions/js_assertions.js`, `src/core/reporting/allure_reporter.js`,
and the `ConfigLoader` class), together with theorems settling the spec
claims about them.

JavaScript strings are modelled as `List Char`; JavaScript plain objects
used as string-keyed maps (header sets, JSON documents) are modelled as
association lists with the keys unique, in insertion order, as JS engines
maintain for non-numeric keys.
-/

namespace Testoria

/-- Header maps (JS objects with string keys and string values). -/
abbrev HeaderMap := List (List Char × List Char)

/-- Environment of the process: `process.env` as a partial map. -/
abbrev EnvMap := List Char → Option (List Char)

/-- Open-brace character, kept as a named constant. -/
def openBrace : Char := Char.ofNat 123

/-- Close-brace character, kept as a named constant. -/
def closeBrace : Char := Char.ofNat 125

/-- Lowercase every character: JS `String.prototype.toLowerCase` on ASCII data. -/
def lowerL (l : List Char) : List Char := l.map Char.toLower

/-- Substring test: JS `String.prototype.includes` / chai `.include` on strings
(case-sensitive). -/
def strContains (hay needle : List Char) : Bool :=
  match hay with
  | [] => needle.isEmpty
  | _ :: t => needle.isPrefixOf hay || strContains t needle

/-- Key lookup in a JS object modelled as an association list
(`obj[key]`, `undefined` becomes `none`). -/
def objLookup (m : HeaderMap) (k : List Char) : Option (List Char) :=
  match m with
  | [] => none
  | kv :: t => if kv.1 = k then some kv.2 else objLookup t k

/-- Property assignment `obj[k] = v` on a JS object: update the entry in
place when the key exists, append otherwise. -/
def objSet (m : HeaderMap) (k v : List Char) : HeaderMap :=
  if m.any (fun kv => kv.1 = k) then
    m.map (fun kv => if kv.1 = k then (k, v) else kv)
  else
    m ++ [(k, v)]

/-- Property removal `delete obj[k]` on a JS object. -/
def objDelete (m : HeaderMap) (k : List Char) : HeaderMap :=
  m.filter (fun kv => kv.1 ≠ k)

/-- Object spread `\x7b...d, ...h\x7d`: start from `d` and assign every
entry of `h` in order. -/
def spreadMerge (d h : HeaderMap) : HeaderMap :=
  h.foldl (fun acc kv => objSet acc kv.1 kv.2) d

/-! ## HTTP client wrapper (`src/core/clients/base_api_client.js`) -/

/-- Strip one trailing slash: the constructor's `baseUrl.replace(/\/$/, '')`
(the regex matches a single `/` at the very end). -/
def stripTrailingSlash (l : List Char) : List Char :=
  if l.getLast? = some '/' then l.dropLast else l

/-- Strip one leading slash: `endpoint.replace(/^\//, '')` in `_buildUrl`. -/
def stripLeadingSlash : List Char → List Char
  | [] => []
  | c :: t => if c = '/' then t else c :: t

/-- The mutable session state of `BaseApiClient`: base URL (slash-stripped at
construction), current default headers, and the last response's index in the
oracle (the axios instance itself carries no further modelled state). -/
structure Client where
  baseUrl : List Char
  headers : HeaderMap
  lastResponse : Option Nat
  deriving DecidableEq, Repr

/-- The `BaseApiClient` constructor: strips one trailing slash from the base
URL and stores the default headers. -/
def mkClient (baseUrl : List Char) (headers : HeaderMap) : Client :=
  { baseUrl := stripTrailingSlash baseUrl, headers := headers, lastResponse := none }

/-- The client's `_buildUrl`: baseUrl ++ "/" ++ endpoint-without-leading-slash. -/
def buildUrl (c : Client) (endpoint : List Char) : List Char :=
  c.baseUrl ++ '/' :: stripLeadingSlash endpoint

/-- The client's `_mergeHeaders`: spread of the per-call headers over the
stored defaults, producing a fresh object. -/
def mergeHeaders (c : Client) (headers : HeaderMap) : HeaderMap :=
  spreadMerge c.headers headers

/-- Key of the Authorization header. -/
def authKey : List Char := "Authorization".data

/-- The client's `setAuthorization(authType, token)`:
`this.headers.Authorization = authType + " " + token`. -/
def setAuthorization (c : Client) (authType token : List Char) : Client :=
  { c with headers := objSet c.headers authKey (authType ++ ' ' :: token) }

/-- The client's `clearAuthorization()`: `delete this.headers.Authorization`. -/
def clearAuthorization (c : Client) : Client :=
  { c with headers := objDelete c.headers authKey }

/-- One `get(endpoint, params, headers)` call, with the transport's answer
passed in as `respIx` (an index into the response oracle): builds the URL,
merges headers (into a fresh map), and the response interceptor stores the
last response on the client. Returns the sent URL, the sent header map and
the post-call client state. -/
def getRequest (c : Client) (endpoint : List Char) (headers : HeaderMap)
    (respIx : Nat) : (List Char × HeaderMap) × Client :=
  ((buildUrl c endpoint, mergeHeaders c headers),
   { c with lastResponse := some respIx })

/-! ## JSON documents and the config loader (`ConfigLoader` class) -/

/-- Parsed JSON value, as delivered by `JSON.parse` (numbers restricted to
integers, which covers every value the config documents use). -/
inductive JValue where
  | null : JValue
  | bool (b : Bool) : JValue
  | num (n : Int) : JValue
  | str (s : List Char) : JValue
  | arr (items : List JValue) : JValue
  | obj (fields : List (List Char × JValue)) : JValue
  deriving Repr

/-- JS truthiness of a parsed JSON value (`!v` is `false` exactly on these). -/
def truthy : JValue → Bool
  | .null => false
  | .bool b => b
  | .num n => n ≠ 0
  | .str s => ¬ s.isEmpty
  | .arr _ => true
  | .obj _ => true

/-- Key lookup among the fields of a JSON object. -/
def objLookupJ (m : List (List Char × JValue)) (k : List Char) : Option JValue :=
  match m with
  | [] => none
  | kv :: t => if kv.1 = k then some kv.2 else objLookupJ t k

/-- Property access `v[key]` on a parsed JSON value: a field of an object, and
`undefined` (`none`) on every non-object (the model gives strings, numbers and
arrays no string-named properties). -/
def jsGet : JValue → List Char → Option JValue
  | .obj fields, k => objLookupJ fields k
  | _, _ => none

/-- Scan for the close of a `$\x7b...\x7d` placeholder: the lazy group
`(.*?)` of the regex `/\$\x7b(.*?)\x7d/g` takes the characters up to the
first `\x7d`, none of which may be a line terminator (`.` excludes those).
Returns the group and the rest of the input after the `\x7d`. -/
def findName : List Char → Option (List Char × List Char)
  | [] => none
  | c :: rest =>
    if c = closeBrace then some ([], rest)
    else if c = '\n' ∨ c = '\r' then none
    else
      match findName rest with
      | some (nm, r) => some (c :: nm, r)
      | none => none

/-- The `ConfigLoader`'s `_substituteEnvVars(value)`: replace every
`$\x7bNAME\x7d` occurrence by the value of the environment variable `NAME`;
when the variable is absent, keep the original token and record a warning
(`console.warn`). Returns the substituted string together with the list of
warned-about variable names, in order. -/
def substituteEnvVars (env : EnvMap) (s : List Char) : List Char × List (List Char) :=
  match s with
  | [] => ([], [])
  | c :: rest =>
    if c = '$' then
      match rest with
      | [] => ([c], [])
      | c2 :: rest2 =>
        if c2 = openBrace then
          if (findName rest2).isSome then
            let nm := ((findName rest2).getD ([], [])).1
            let r := ((findName rest2).getD ([], [])).2
            let tail := substituteEnvVars env r
            match env nm with
            | some v => (v ++ tail.1, tail.2)
            | none => ('$' :: openBrace :: (nm ++ closeBrace :: tail.1), nm :: tail.2)
          else
            let tail := substituteEnvVars env (c2 :: rest2)
            (c :: tail.1, tail.2)
        else
          let tail := substituteEnvVars env (c2 :: rest2)
          (c :: tail.1, tail.2)
    else
      let tail := substituteEnvVars env rest
      (c :: tail.1, tail.2)
termination_by s.length
decreasing_by
  · have key : ∀ (l nm r : List Char), findName l = some (nm, r) → r.length < l.length := by
      intro l
      induction l with
      | nil => intro nm r h; simp [findName] at h
      | cons c t ih =>
        intro nm r h
        simp only [findName] at h
        by_cases h1 : c = closeBrace
        · rw [if_pos h1] at h
          cases h
          simp
        · rw [if_neg h1] at h
          by_cases h2 : c = '\n' ∨ c = '\x0d'
          · rw [if_pos h2] at h
            cases h
          · rw [if_neg h2] at h
            revert h
            cases hf : findName t with
            | none => intro h; cases h
            | some p =>
              intro h
              cases h
              have := ih p.1 p.2 (by rw [hf])
              simp only [List.length_cons]
              omega
    rename_i hres
    obtain ⟨p, hf⟩ := Option.isSome_iff_exists.mp hres
    have hlen := key _ p.1 p.2 (by rw [hf])
    rw [hf]
    simp only [Option.getD_some, List.length_cons]
    omega
  · simp
  · simp
  · simp

mutual

/-- The `ConfigLoader`'s `_processEnvVars(config)`: recursively substitute
environment variables in every string of the document, descending through
arrays and objects, leaving other scalars unchanged. Also collects the
warnings emitted along the way. -/
def processEnvVars (env : EnvMap) : JValue → JValue × List (List Char)
  | .str s =>
    let r := substituteEnvVars env s
    (.str r.1, r.2)
  | .arr items =>
    let r := processArr env items
    (.arr r.1, r.2)
  | .obj fields =>
    let r := processObj env fields
    (.obj r.1, r.2)
  | .num n => (.num n, [])
  | .bool b => (.bool b, [])
  | .null => (.null, [])

/-- Array case of `_processEnvVars` (`config.map(item => ...)`). -/
def processArr (env : EnvMap) : List JValue → List JValue × List (List Char)
  | [] => ([], [])
  | v :: t =>
    let rv := processEnvVars env v
    let rt := processArr env t
    (rv.1 :: rt.1, rv.2 ++ rt.2)

/-- Object case of `_processEnvVars` (the `for (const key in config)` loop). -/
def processObj (env : EnvMap) :
    List (List Char × JValue) → List (List Char × JValue) × List (List Char)
  | [] => ([], [])
  | (k, v) :: t =>
    let rv := processEnvVars env v
    let rt := processObj env t
    ((k, rv.1) :: rt.1, rv.2 ++ rt.2)

end

/-- State of a `ConfigLoader` instance: the memoised `this._config`
(`null` before the first successful load). -/
structure ConfigLoader where
  cache : Option JValue

/-- A freshly constructed `ConfigLoader` (`this._config = null`). -/
def newConfigLoader : ConfigLoader := { cache := none }

/-- The error taxonomy the loader and clients surface. -/
inductive JsError where
  | readOrParse (msg : List Char) : JsError
  | notFound (msg : List Char) : JsError
  deriving Repr

/-- The `ConfigLoader`'s `loadConfig()`: return the cached document when one
exists; otherwise read and parse the file (its outcome at this call is
`file`), substitute environment variables, cache and return the result. A
read/parse failure is rethrown and leaves the cache untouched. -/
def loadConfig (st : ConfigLoader) (file : Except (List Char) JValue)
    (env : EnvMap) : Except JsError JValue × ConfigLoader :=
  match st.cache with
  | some c => (.ok c, st)
  | none =>
    match file with
    | .error e => (.error (.readOrParse e), st)
    | .ok raw =>
      let processed := (processEnvVars env raw).1
      (.ok processed, { cache := some processed })

/-- Name of the `ENVIRONMENT` process variable. -/
def environmentVarName : List Char := "ENVIRONMENT".data

/-- Key of the `environments` section of the config document. -/
def envsKey : List Char := "environments".data

/-- The default environment name `"dev"`. -/
def devName : List Char := "dev".data

/-- Defaulting of the environment name in `getEnvironmentConfig`:
`env = process.env.ENVIRONMENT || 'dev'` (an unset or empty variable falls
back to `"dev"`). -/
def defaultEnvName (envVar : Option (List Char)) : List Char :=
  match envVar with
  | some s => if s.isEmpty then devName else s
  | none => devName

/-- The `if (!env)` guard of `getEnvironmentConfig`: an absent or empty
argument is replaced by the defaulted name. -/
def effectiveEnvName (envArg envVar : Option (List Char)) : List Char :=
  match envArg with
  | some s => if s.isEmpty then defaultEnvName envVar else s
  | none => defaultEnvName envVar

/-- Error message `Environment '<env>' not found in configuration`. -/
def envNotFoundMsg (env : List Char) : List Char :=
  "Environment '".data ++ env ++ "' not found in configuration".data

/-- The `ConfigLoader`'s `getEnvironmentConfig(env)` applied to an already
loaded document `cfg`: default the name, then
`if (!config.environments || !config.environments[env]) throw`, else return
`config.environments[env]`. -/
def getEnvironmentConfig (cfg : JValue) (envArg envVar : Option (List Char)) :
    Except JsError JValue :=
  let env := effectiveEnvName envArg envVar
  match jsGet cfg envsKey with
  | none => .error (.notFound (envNotFoundMsg env))
  | some envs =>
    if truthy envs then
      match jsGet envs env with
      | none => .error (.notFound (envNotFoundMsg env))
      | some entry =>
        if truthy entry then .ok entry
        else .error (.notFound (envNotFoundMsg env))
    else .error (.notFound (envNotFoundMsg env))

/-! ## Assertion library (`src/core/assertions/js_assertions.js`) -/

/-- The normalised axios response the assertion helpers consume: status code,
header map and parsed body. -/
structure AxiosResponse where
  status : Int
  headers : HeaderMap
  body : JValue

/-- An `AssertionError` raised by a failed chai expectation, carrying the
human-readable message. -/
structure AssertionFailure where
  message : List Char
  deriving DecidableEq, Repr

/-- Message of a failed chai `.equal` expectation on numbers:
`expected <actual> to equal <expected>`. -/
def chaiEqualMsg (actual expected : Int) : List Char :=
  "expected ".data ++ (toString actual).data ++ " to equal ".data ++
    (toString expected).data

/-- Message of a failed chai `.include` expectation on strings. -/
def chaiIncludeMsg (hay needle : List Char) : List Char :=
  "expected '".data ++ hay ++ "' to include '".data ++ needle ++ "'".data

/-- Message of a failed chai `.include` expectation on an array of header
names. -/
def chaiHeaderExistsMsg (name : List Char) : List Char :=
  "expected header names to include '".data ++ name ++ "'".data

/-- `ApiAssertions.assertStatusCode(response, expectedCode)`:
`expect(response.status).to.equal(expectedCode)` — strict equality, raising
an `AssertionError` with expected and actual in the message otherwise. -/
def assertStatusCode (response : AxiosResponse) (expectedCode : Int) :
    Except AssertionFailure Unit :=
  if response.status = expectedCode then .ok ()
  else .error ⟨chaiEqualMsg response.status expectedCode⟩

/-- Key of the content-type header as `assertContentType` reads it. -/
def contentTypeKey : List Char := "content-type".data

/-- `ApiAssertions.assertHeaderExists(response, headerName)`: the lowercased
header names must include the lowercased wanted name. -/
def assertHeaderExists (response : AxiosResponse) (headerName : List Char) :
    Except AssertionFailure Unit :=
  if (response.headers.map (fun kv => lowerL kv.1)).contains (lowerL headerName) then
    .ok ()
  else .error ⟨chaiHeaderExistsMsg (lowerL headerName)⟩

/-- `ApiAssertions.assertContentType(response, expectedContentType)`: first
`assertHeaderExists(response, 'content-type')`, then
`expect(response.headers['content-type'] || '').to.include(expected)` —
an exact-key read and a case-sensitive substring test. -/
def assertContentType (response : AxiosResponse) (expectedContentType : List Char) :
    Except AssertionFailure Unit :=
  match assertHeaderExists response contentTypeKey with
  | .error e => .error e
  | .ok _ =>
    let contentType :=
      match objLookup response.headers contentTypeKey with
      | some v => v
      | none => []
    if strContains contentType expectedContentType then .ok ()
    else .error ⟨chaiIncludeMsg contentType expectedContentType⟩

/-- The JSON media type string. -/
def applicationJson : List Char := "application/json".data

/-- `ApiAssertions.assertJsonContentType(response)`:
`this.assertContentType(response, 'application/json')`. -/
def assertJsonContentType (response : AxiosResponse) : Except AssertionFailure Unit :=
  assertContentType response applicationJson

/-! ## Reporter header sanitisation (`src/core/reporting/allure_reporter.js`) -/

/-- The fixed mask written over sensitive header values. -/
def headerMask : List Char := "*****".data

/-- The sensitive header names of `_sanitizeHeaders`, lowercase. -/
def sensitiveHeaders : List (List Char) :=
  ["authorization".data, "x-api-key".data, "cookie".data]

/-- The reporter's `_sanitizeHeaders(headers)`: copy the map and overwrite
the value of every entry whose lowercased name is sensitive with the mask. -/
def sanitizeHeaders (headers : HeaderMap) : HeaderMap :=
  headers.map (fun kv =>
    if sensitiveHeaders.contains (lowerL kv.1) then (kv.1, headerMask) else kv)

/-! ## Helper lemmas on the JS-object operations -/

theorem objLookup_none_any_false {m : HeaderMap} {k : List Char}
    (h : objLookup m k = none) : m.any (fun kv => kv.1 = k) = false := by
  induction m with
  | nil => rfl
  | cons kv t ih =>
    simp only [objLookup] at h
    by_cases hk : kv.1 = k
    · simp [hk] at h
    · simp only [List.any_cons]
      rw [if_neg hk] at h
      simp [hk, ih h]

theorem objSet_of_not_mem {m : HeaderMap} {k : List Char}
    (h : objLookup m k = none) (v : List Char) :
    objSet m k v = m ++ [(k, v)] := by
  unfold objSet
  rw [objLookup_none_any_false h]
  simp

theorem objDelete_of_not_mem {m : HeaderMap} {k : List Char}
    (h : objLookup m k = none) : objDelete m k = m := by
  induction m with
  | nil => rfl
  | cons kv t ih =>
    simp only [objLookup] at h
    by_cases hk : kv.1 = k
    · simp [hk] at h
    · rw [if_neg hk] at h
      simp only [objDelete] at ih ⊢
      rw [List.filter_cons, if_pos (by simp [hk]), ih h]

theorem objDelete_append_single (m : HeaderMap) (k v : List Char) :
    objDelete (m ++ [(k, v)]) k = objDelete m k := by
  simp [objDelete, List.filter_append]

/-! ## Claim C1 -/

/-- C1 (counterexample): for a client whose initial default header set already
contains an Authorization entry, `setAuthorization` followed by
`clearAuthorization` does not restore the pre-call header set — the original
Authorization entry is deleted outright. -/
theorem setAuth_clearAuth_not_roundtrip_with_initial_auth :
    objLookup (Client.mk "https://api.test".data
        [("Authorization".data, "Basic abc".data)] none).headers authKey =
      some "Basic abc".data ∧
    clearAuthorization (setAuthorization
        (Client.mk "https://api.test".data
          [("Authorization".data, "Basic abc".data)] none)
        "Bearer".data "tok".data) ≠
      Client.mk "https://api.test".data
        [("Authorization".data, "Basic abc".data)] none := by
  constructor
  · decide
  · decide

/-- C1 (amended): for every client whose default header set contains no
Authorization entry, `setAuthorization(scheme, token)` followed immediately by
`clearAuthorization()` restores the client exactly (round-trip). -/
theorem setAuth_clearAuth_roundtrip (c : Client) (authType token : List Char)
    (h : objLookup c.headers authKey = none) :
    clearAuthorization (setAuthorization c authType token) = c := by
  unfold clearAuthorization setAuthorization
  simp only
  rw [objSet_of_not_mem h, objDelete_append_single, objDelete_of_not_mem h]

/-- C1 (witness): the round-trip at a concrete client with a non-Authorization
default header. -/
theorem setAuth_clearAuth_roundtrip_witness :
    clearAuthorization (setAuthorization
        (Client.mk "https://api.test".data
          [("Accept".data, "application/json".data)] none)
        "Bearer".data "tok".data) =
      Client.mk "https://api.test".data
        [("Accept".data, "application/json".data)] none :=
  setAuth_clearAuth_roundtrip _ _ _ (by decide)

/-! ## Claim C2 -/

theorem stripTrailingSlash_concat_slash (l : List Char) :
    stripTrailingSlash (l ++ ['/']) = l := by
  simp [stripTrailingSlash, List.getLast?_concat, List.dropLast_concat]

theorem stripTrailingSlash_of_no_slash {l : List Char}
    (h : l.getLast? ≠ some '/') : stripTrailingSlash l = l := by
  simp [stripTrailingSlash, h]

theorem stripLeadingSlash_cons_slash (l : List Char) :
    stripLeadingSlash ('/' :: l) = l := by
  simp [stripLeadingSlash]

theorem stripLeadingSlash_of_no_slash {l : List Char}
    (h : l.head? ≠ some '/') : stripLeadingSlash l = l := by
  cases l with
  | nil => rfl
  | cons c t =>
    have hc : c ≠ '/' := by
      intro hc
      exact h (by simp [hc])
    simp [stripLeadingSlash, hc]

/-- C2: for every base URL written as `B` optionally followed by a slash and
every path written as `P` optionally preceded by a slash (where `B` itself
does not end and `P` itself does not start with a slash), the URL the client
builds is `B ++ "/" ++ P` — exactly one separating slash, both remainders
verbatim; and in particular a client built with base URL
`https://api.test/` resolves `get("/users/1")` to
`https://api.test/users/1`. -/
theorem buildUrl_single_separating_slash (B P : List Char) (hdrs : HeaderMap)
    (eb ep : Bool) (hB : B.getLast? ≠ some '/') (hP : P.head? ≠ some '/') :
    buildUrl (mkClient (B ++ (if eb then ['/'] else [])) hdrs)
        ((if ep then ['/'] else []) ++ P) = B ++ '/' :: P ∧
    buildUrl (mkClient "https://api.test/".data []) "/users/1".data =
      "https://api.test/users/1".data := by
  constructor
  · cases eb <;> cases ep <;>
      simp [buildUrl, mkClient, stripTrailingSlash_concat_slash,
        stripTrailingSlash_of_no_slash hB, stripLeadingSlash_cons_slash,
        stripLeadingSlash_of_no_slash hP]
  · decide

/-- C2 (witness): the join at the concrete base `https://api.test` with a
trailing slash and the concrete path `users/1` with a leading slash. -/
theorem buildUrl_single_separating_slash_witness :
    buildUrl (mkClient ("https://api.test".data ++ ['/']) [])
        ('/' :: "users/1".data) = "https://api.test".data ++ '/' :: "users/1".data ∧
    buildUrl (mkClient "https://api.test/".data []) "/users/1".data =
      "https://api.test/users/1".data := by
  have h := buildUrl_single_separating_slash "https://api.test".data
    "users/1".data [] true true (by decide) (by decide)
  simpa using h

/-! ## Claim C3 -/

theorem findName_append_close {nm : List Char} (suf : List Char)
    (hwf : ∀ c ∈ nm, c ≠ closeBrace ∧ c ≠ '\n' ∧ c ≠ '\r') :
    findName (nm ++ closeBrace :: suf) = some (nm, suf) := by
  induction nm with
  | nil => simp [findName]
  | cons c t ih =>
    have hc := hwf c (by simp)
    have ht : ∀ x ∈ t, x ≠ closeBrace ∧ x ≠ '\n' ∧ x ≠ '\r' :=
      fun x hx => hwf x (by simp [hx])
    simp [findName, hc.1, hc.2.1, hc.2.2, ih ht]

theorem substituteEnvVars_missing (env : EnvMap) {nm : List Char} (suf : List Char)
    (hwf : ∀ c ∈ nm, c ≠ closeBrace ∧ c ≠ '\n' ∧ c ≠ '\r')
    (henv : env nm = none) :
    substituteEnvVars env ('$' :: openBrace :: (nm ++ closeBrace :: suf)) =
      ('$' :: openBrace :: (nm ++ closeBrace :: (substituteEnvVars env suf).1),
       nm :: (substituteEnvVars env suf).2) := by
  have hfind := findName_append_close suf hwf
  rw [substituteEnvVars.eq_def]
  simp [hfind, henv]

theorem substituteEnvVars_append_of_no_dollar (env : EnvMap) {pre : List Char}
    (s : List Char) (hpre : '$' ∉ pre) :
    substituteEnvVars env (pre ++ s) =
      (pre ++ (substituteEnvVars env s).1, (substituteEnvVars env s).2) := by
  induction pre with
  | nil => rfl
  | cons c t ih =>
    have hc : c ≠ '$' := fun h => hpre (by simp [h])
    have ht : '$' ∉ t := fun h => hpre (by simp [h])
    simp only [List.cons_append]
    rw [substituteEnvVars.eq_def]
    simp only [if_neg hc]
    rw [ih ht]

theorem substituteEnvVars_nil (env : EnvMap) : substituteEnvVars env [] = ([], []) := by
  rw [substituteEnvVars.eq_def]

theorem substituteEnvVars_missing_var_scenario :
    substituteEnvVars (fun _ => none) "$\x7bMISSING_VAR\x7d".data =
      ("$\x7bMISSING_VAR\x7d".data, ["MISSING_VAR".data]) := by
  have hdec : "$\x7bMISSING_VAR\x7d".data =
      '$' :: openBrace :: ("MISSING_VAR".data ++ closeBrace :: ([] : List Char)) := by
    decide
  have hs := @substituteEnvVars_missing (fun _ => none) "MISSING_VAR".data
      ([] : List Char) (by decide) rfl
  rw [substituteEnvVars_nil] at hs
  rw [hdec, hs, ← hdec]

/-- C3: for every process environment in which `NAME` is unset, substituting a
string made of a dollar-free prefix, the placeholder `$\x7bNAME\x7d` and any
suffix keeps the literal placeholder token unchanged in the output and emits a
warning naming `NAME` (substitution is total, so it never fails the load); and
in the concrete scenario, loading a config document holding the string
`$\x7bMISSING_VAR\x7d` with `MISSING_VAR` unset succeeds, resolves the value
to the same literal string, and warns exactly about `MISSING_VAR`. -/
theorem substitution_missing_var_kept (env : EnvMap) (nm pre suf : List Char)
    (hwf : ∀ c ∈ nm, c ≠ closeBrace ∧ c ≠ '\n' ∧ c ≠ '\r')
    (hpre : '$' ∉ pre) (henv : env nm = none) :
    ((substituteEnvVars env (pre ++ '$' :: openBrace :: (nm ++ closeBrace :: suf))).1 =
      pre ++ '$' :: openBrace :: (nm ++ closeBrace :: (substituteEnvVars env suf).1) ∧
     nm ∈ (substituteEnvVars env (pre ++ '$' :: openBrace :: (nm ++ closeBrace :: suf))).2) ∧
    loadConfig newConfigLoader
        (.ok (.obj [("client_id".data, .str "$\x7bMISSING_VAR\x7d".data)]))
        (fun _ => none) =
      (.ok (.obj [("client_id".data, .str "$\x7bMISSING_VAR\x7d".data)]),
       { cache := some (.obj [("client_id".data, .str "$\x7bMISSING_VAR\x7d".data)]) }) ∧
    (processEnvVars (fun _ => none)
        (.obj [("client_id".data, .str "$\x7bMISSING_VAR\x7d".data)])).2 =
      ["MISSING_VAR".data] := by
  have hmid := substituteEnvVars_missing env suf hwf henv
  refine ⟨⟨?_, ?_⟩, ?_, ?_⟩
  · rw [substituteEnvVars_append_of_no_dollar env _ hpre, hmid]
  · rw [substituteEnvVars_append_of_no_dollar env _ hpre, hmid]
    exact List.mem_cons_self _ _
  · have hstr := substituteEnvVars_missing_var_scenario
    simp only at hstr
    simp [loadConfig, newConfigLoader, processEnvVars, processObj, hstr]
  · have hstr := substituteEnvVars_missing_var_scenario
    simp only at hstr
    simp [processEnvVars, processObj, hstr]

/-- C3 (witness): the substitution statement at the unset variable
`MISSING_VAR`, empty prefix and empty suffix. -/
theorem substitution_missing_var_kept_witness :
    ((substituteEnvVars (fun _ => none)
        (([] : List Char) ++ '$' :: openBrace ::
          ("MISSING_VAR".data ++ closeBrace :: ([] : List Char)))).1 =
      ([] : List Char) ++ '$' :: openBrace :: ("MISSING_VAR".data ++ closeBrace ::
        (substituteEnvVars (fun _ => none) ([] : List Char)).1) ∧
     "MISSING_VAR".data ∈ (substituteEnvVars (fun _ => none)
        (([] : List Char) ++ '$' :: openBrace ::
          ("MISSING_VAR".data ++ closeBrace :: ([] : List Char)))).2) ∧
    loadConfig newConfigLoader
        (.ok (.obj [("client_id".data, .str "$\x7bMISSING_VAR\x7d".data)]))
        (fun _ => none) =
      (.ok (.obj [("client_id".data, .str "$\x7bMISSING_VAR\x7d".data)]),
       { cache := some (.obj [("client_id".data, .str "$\x7bMISSING_VAR\x7d".data)]) }) ∧
    (processEnvVars (fun _ => none)
        (.obj [("client_id".data, .str "$\x7bMISSING_VAR\x7d".data)])).2 =
      ["MISSING_VAR".data] :=
  substitution_missing_var_kept (fun _ => none) "MISSING_VAR".data [] []
    (by decide) (by decide) rfl

/-! ## Claim C4 -/

/-- C4 (counterexample): for the document
`\x7b"environments": \x7b"dev": null\x7d\x7d`, the key `"dev"` is present in
the environments mapping, yet `getEnvironmentConfig()` (with `ENVIRONMENT`
unset) fails with NotFoundError — the truthiness test rejects a present but
falsy entry, so "fails exactly when the key is absent" is false on the code. -/
theorem getEnvironmentConfig_null_entry_counterexample :
    objLookupJ [(devName, JValue.null)] devName = some JValue.null ∧
    getEnvironmentConfig (.obj [(envsKey, .obj [(devName, JValue.null)])]) none none =
      .error (.notFound (envNotFoundMsg devName)) := by
  constructor
  · rfl
  · rfl

/-- C4 (amended): `getEnvironmentConfig` defaults the name to the
`ENVIRONMENT` variable when that is set and non-empty and to `"dev"`
otherwise; it returns an entry exactly when the loaded document has a truthy
`environments` mapping with a truthy entry under the resulting key, and fails
with NotFoundError naming that key in every other case (in particular also
when the key is present with a null entry); for the scenario document
`\x7b"environments":\x7b"dev":\x7b"base_url":"https://x","timeout":1000\x7d\x7d\x7d`
with `ENVIRONMENT` unset, it returns the `"dev"` entry. -/
theorem getEnvironmentConfig_characterisation (cfg : JValue)
    (envArg envVar : Option (List Char)) :
    (∀ v, getEnvironmentConfig cfg envArg envVar = .ok v ↔
      (∃ envs, jsGet cfg envsKey = some envs ∧ truthy envs = true ∧
        jsGet envs (effectiveEnvName envArg envVar) = some v ∧ truthy v = true)) ∧
    ((¬ ∃ v, getEnvironmentConfig cfg envArg envVar = .ok v) →
      getEnvironmentConfig cfg envArg envVar =
        .error (.notFound (envNotFoundMsg (effectiveEnvName envArg envVar)))) ∧
    effectiveEnvName none none = "dev".data ∧
    (∀ s, s ≠ [] → effectiveEnvName none (some s) = s) ∧
    getEnvironmentConfig
        (.obj [(envsKey, .obj [(devName,
          .obj [("base_url".data, .str "https://x".data),
                ("timeout".data, .num 1000)])])]) none none =
      .ok (.obj [("base_url".data, .str "https://x".data),
                 ("timeout".data, .num 1000)]) := by
  refine ⟨?_, ?_, rfl, ?_, rfl⟩
  · intro v
    unfold getEnvironmentConfig
    cases h1 : jsGet cfg envsKey with
    | none => simp [h1]
    | some envs =>
      by_cases h2 : truthy envs
      · cases h3 : jsGet envs (effectiveEnvName envArg envVar) with
        | none => simp [h1, h2, h3]
        | some entry =>
          by_cases h4 : truthy entry
          · simp [h1, h2, h3, h4]
            intro h
            rw [← h]
            exact h4
          · simp [h1, h2, h3, h4]
            intro h
            rw [← h]
            simpa using h4
      · simp [h1, h2]
  · intro hno
    unfold getEnvironmentConfig
    cases h1 : jsGet cfg envsKey with
    | none => simp [h1]
    | some envs =>
      by_cases h2 : truthy envs
      · cases h3 : jsGet envs (effectiveEnvName envArg envVar) with
        | none => simp [h1, h2, h3]
        | some entry =>
          by_cases h4 : truthy entry
          · exfalso
            apply hno
            refine ⟨entry, ?_⟩
            unfold getEnvironmentConfig
            simp [h1, h2, h3, h4]
          · simp [h1, h2, h3, h4]
      · simp [h1, h2]
  · intro s hs
    cases s with
    | nil => exact absurd rfl hs
    | cons c t => rfl

/-- C4 (witness): the resolution at the scenario document with `ENVIRONMENT`
unset, and the defaulting at a concrete non-empty `ENVIRONMENT` value. -/
theorem getEnvironmentConfig_characterisation_witness :
    (∃ envs, jsGet (.obj [(envsKey, .obj [(devName,
        .obj [("base_url".data, .str "https://x".data),
              ("timeout".data, .num 1000)])])]) envsKey = some envs ∧
      truthy envs = true ∧
      jsGet envs (effectiveEnvName none none) =
        some (.obj [("base_url".data, .str "https://x".data),
                    ("timeout".data, .num 1000)]) ∧
      truthy (.obj [("base_url".data, .str "https://x".data),
                    ("timeout".data, .num 1000)]) = true) ∧
    effectiveEnvName none (some "test".data) = "test".data :=
  ⟨((getEnvironmentConfig_characterisation
      (.obj [(envsKey, .obj [(devName,
        .obj [("base_url".data, .str "https://x".data),
              ("timeout".data, .num 1000)])])]) none none).1
      (.obj [("base_url".data, .str "https://x".data),
             ("timeout".data, .num 1000)])).mp rfl,
   (getEnvironmentConfig_characterisation
      (.obj [(envsKey, .obj [(devName,
        .obj [("base_url".data, .str "https://x".data),
              ("timeout".data, .num 1000)])])]) none
      (some "test".data)).2.2.2.1 "test".data (by simp)⟩

/-! ## Claim C5 -/

/-- C5: `assertStatusCode(resp, expected)` returns normally exactly when
`resp.status` equals `expected`, and on any other status raises an
AssertionFailure whose message contains both the actual and the expected
status values. -/
theorem assertStatusCode_exact_match (response : AxiosResponse) (expectedCode : Int) :
    (assertStatusCode response expectedCode = .ok () ↔
      response.status = expectedCode) ∧
    (response.status ≠ expectedCode →
      ∃ pre mid suf, assertStatusCode response expectedCode =
        .error ⟨pre ++ (toString response.status).data ++ mid ++
          ((toString expectedCode).data ++ suf)⟩) := by
  constructor
  · unfold assertStatusCode
    by_cases h : response.status = expectedCode
    · simp [h]
    · simp [h]
  · intro h
    refine ⟨"expected ".data, " to equal ".data, [], ?_⟩
    unfold assertStatusCode
    rw [if_neg h]
    simp [chaiEqualMsg]

/-- C5 (witness): the failure branch at a concrete response with status 404
checked against 200. -/
theorem assertStatusCode_exact_match_witness :
    ∃ pre mid suf, assertStatusCode ⟨404, [], .null⟩ 200 =
      .error ⟨pre ++ (toString (404 : Int)).data ++ mid ++
        ((toString (200 : Int)).data ++ suf)⟩ :=
  (assertStatusCode_exact_match ⟨404, [], .null⟩ 200).2 (by decide)

/-! ## Claim C6 -/

theorem strContains_iff (hay needle : List Char) :
    strContains hay needle = true ↔ ∃ pre suf, hay = pre ++ needle ++ suf := by
  induction hay with
  | nil =>
    simp only [strContains]
    constructor
    · intro h
      have hn : needle = [] := by simpa [List.isEmpty_iff] using h
      exact ⟨[], [], by simp [hn]⟩
    · rintro ⟨pre, suf, h⟩
      have h' := h.symm
      simp only [List.append_assoc, List.append_eq_nil] at h'
      simp [h'.2.1]
  | cons c t ih =>
    simp only [strContains, Bool.or_eq_true, ih]
    constructor
    · rintro (h | ⟨pre, suf, h⟩)
      · obtain ⟨suf, hs⟩ := List.isPrefixOf_iff_prefix.mp h
        exact ⟨[], suf, by simp [← hs]⟩
      · exact ⟨c :: pre, suf, by simp [h]⟩
    · rintro ⟨pre, suf, h⟩
      cases pre with
      | nil =>
        left
        rw [List.isPrefixOf_iff_prefix]
        exact ⟨suf, by simpa using h.symm⟩
      | cons p ps =>
        right
        simp only [List.cons_append, List.cons.injEq] at h
        exact ⟨ps, suf, h.2⟩

/-- C6 (counterexample): the header value `Application/JSON; charset=utf-8`
does contain `application/json` case-insensitively, yet
`assertJsonContentType` raises an AssertionFailure on it — chai's `.include`
compares case-sensitively, so the claim's case-insensitive reading is false
on the code. -/
theorem assertJsonContentType_case_sensitive_counterexample :
    strContains (lowerL "Application/JSON; charset=utf-8".data) applicationJson = true ∧
    assertJsonContentType
        ⟨200, [(contentTypeKey, "Application/JSON; charset=utf-8".data)], .null⟩ =
      .error ⟨chaiIncludeMsg "Application/JSON; charset=utf-8".data applicationJson⟩ := by
  constructor
  · rfl
  · rfl

/-- C6 (amended): `assertJsonContentType` returns normally exactly when some
header's name lowercases to `content-type` and the value stored under the
exact key `content-type` (the empty string when that exact key is absent)
contains the lowercase string `application/json` as a case-sensitive
substring; in particular the value `application/json; charset=utf-8` passes. -/
theorem assertJsonContentType_characterisation (response : AxiosResponse) :
    (assertJsonContentType response = .ok () ↔
      ((∃ kv ∈ response.headers, lowerL kv.1 = contentTypeKey) ∧
       ∃ pre suf, (objLookup response.headers contentTypeKey).getD [] =
         pre ++ applicationJson ++ suf)) ∧
    assertJsonContentType
        ⟨200, [(contentTypeKey, "application/json; charset=utf-8".data)], .null⟩ =
      .ok () := by
  constructor
  · have hkey : lowerL contentTypeKey = contentTypeKey := by decide
    simp only [assertJsonContentType, assertContentType, assertHeaderExists, hkey]
    have hmatch : (match objLookup response.headers contentTypeKey with
        | some v => v
        | none => []) = (objLookup response.headers contentTypeKey).getD [] := by
      cases objLookup response.headers contentTypeKey <;> rfl
    by_cases h1 : (response.headers.map (fun kv => lowerL kv.1)).contains contentTypeKey
    · rw [if_pos h1, hmatch]
      have hmem : ∃ kv ∈ response.headers, lowerL kv.1 = contentTypeKey := by
        have := List.elem_iff.mp h1
        simpa [List.mem_map] using this
      by_cases h2 :
          strContains ((objLookup response.headers contentTypeKey).getD [])
            applicationJson
      · rw [if_pos h2]
        exact ⟨fun _ => ⟨hmem, (strContains_iff _ _).mp h2⟩, fun _ => rfl⟩
      · rw [if_neg h2]
        constructor
        · intro hcon
          exact Except.noConfusion hcon
        · rintro ⟨-, hb⟩
          exact absurd ((strContains_iff _ _).mpr hb) h2
    · rw [if_neg h1]
      have hmem : ¬ ∃ kv ∈ response.headers, lowerL kv.1 = contentTypeKey := by
        intro hc
        apply h1
        rw [List.elem_iff]
        simpa [List.mem_map] using hc
      constructor
      · intro hcon
        exact Except.noConfusion hcon
      · rintro ⟨ha, -⟩
        exact absurd ha hmem
  · rfl

/-! ## Claim C7 -/

/-- C7: `_sanitizeHeaders` keeps the shape of the header map (same length,
same names in the same positions); every entry whose name is one of
`Authorization`, `X-API-Key` or `Cookie` (names compared as HTTP header
names, i.e. case-insensitively) gets its value replaced by the fixed mask,
and every other entry is kept unchanged. -/
theorem sanitizeHeaders_masks_sensitive (headers : HeaderMap) (i : Nat) :
    (sanitizeHeaders headers).length = headers.length ∧
    (∀ kv, headers[i]? = some kv →
      ((lowerL kv.1 = "authorization".data ∨ lowerL kv.1 = "x-api-key".data ∨
          lowerL kv.1 = "cookie".data) →
        (sanitizeHeaders headers)[i]? = some (kv.1, headerMask)) ∧
      (¬ (lowerL kv.1 = "authorization".data ∨ lowerL kv.1 = "x-api-key".data ∨
          lowerL kv.1 = "cookie".data) →
        (sanitizeHeaders headers)[i]? = some kv)) := by
  refine ⟨by simp [sanitizeHeaders], ?_⟩
  intro kv hkv
  have hget : (sanitizeHeaders headers)[i]? =
      some (if sensitiveHeaders.contains (lowerL kv.1) then (kv.1, headerMask) else kv) := by
    simp [sanitizeHeaders, List.getElem?_map, hkv]
  constructor
  · intro hs
    have hc : sensitiveHeaders.contains (lowerL kv.1) = true := by
      rw [List.elem_iff]
      simpa [sensitiveHeaders] using hs
    rw [hget, if_pos hc]
  · intro hs
    have hc : ¬ sensitiveHeaders.contains (lowerL kv.1) = true := by
      rw [List.elem_iff]
      simpa [sensitiveHeaders] using hs
    rw [hget, if_neg hc]

/-- C7 (witness): on a concrete header map, the Authorization value is masked
and the Accept entry is kept verbatim. -/
theorem sanitizeHeaders_masks_sensitive_witness :
    (sanitizeHeaders [("Authorization".data, "Bearer secret".data),
        ("Accept".data, "application/json".data)])[0]? =
      some ("Authorization".data, headerMask) ∧
    (sanitizeHeaders [("Authorization".data, "Bearer secret".data),
        ("Accept".data, "application/json".data)])[1]? =
      some ("Accept".data, "application/json".data) :=
  ⟨((sanitizeHeaders_masks_sensitive
      [("Authorization".data, "Bearer secret".data),
       ("Accept".data, "application/json".data)] 0).2
      ("Authorization".data, "Bearer secret".data) (by decide)).1 (by decide),
   ((sanitizeHeaders_masks_sensitive
      [("Authorization".data, "Bearer secret".data),
       ("Accept".data, "application/json".data)] 1).2
      ("Accept".data, "application/json".data) (by decide)).2 (by decide)⟩

/-! ## Claim C8 -/

/-- C8: after the first successful `loadConfig()` the returned value is cached
in the loader state, and every subsequent call returns the same value and
state regardless of the file contents or the process environment at that
later time; a failed load leaves the cache untouched (so it is not cached and
a later successful load wins). -/
theorem loadConfig_caches_first_success
    (file1 : Except (List Char) JValue) (env1 : EnvMap) (c : JValue)
    (st1 : ConfigLoader)
    (hfirst : loadConfig newConfigLoader file1 env1 = (.ok c, st1)) :
    (∀ file2 env2, loadConfig st1 file2 env2 = (.ok c, st1)) ∧
    (∀ file env e st', loadConfig newConfigLoader file env = (.error e, st') →
      st' = newConfigLoader) := by
  constructor
  · cases file1 with
    | error e =>
      exfalso
      unfold loadConfig newConfigLoader at hfirst
      simp at hfirst
    | ok raw =>
      unfold loadConfig newConfigLoader at hfirst
      simp only [Prod.mk.injEq, Except.ok.injEq] at hfirst
      obtain ⟨hc, hst⟩ := hfirst
      intro file2 env2
      rw [← hst, ← hc]
      rfl
  · intro file env e st' h
    cases file with
    | error e' =>
      unfold loadConfig newConfigLoader at h
      simp only [Prod.mk.injEq] at h
      exact h.2.symm
    | ok raw =>
      exfalso
      unfold loadConfig newConfigLoader at h
      simp at h

/-- C8 (witness): a concrete first successful load of the empty document,
after which a second call with a different file and environment still returns
the cached document and state. -/
theorem loadConfig_caches_first_success_witness :
    loadConfig { cache := some (JValue.obj []) } (.ok (.str "changed".data))
        (fun _ => some "X".data) =
      (.ok (JValue.obj []), { cache := some (JValue.obj []) }) :=
  (loadConfig_caches_first_success (.ok (.obj [])) (fun _ => none) (.obj [])
      { cache := some (.obj []) }
      (by simp [loadConfig, newConfigLoader, processEnvVars, processObj])).1
    (.ok (.str "changed".data)) (fun _ => some "X".data)

/-! ## Claim C9 -/

theorem objLookup_eq_none_of_not_mem_keys {m : HeaderMap} {k : List Char}
    (h : k ∉ m.map Prod.fst) : objLookup m k = none := by
  induction m with
  | nil => rfl
  | cons kv t ih =>
    have hk : kv.1 ≠ k := by
      intro hc
      exact h (by simp [hc])
    have ht : k ∉ t.map Prod.fst := fun hc => h (by simp [hc])
    simp [objLookup, hk, ih ht]

theorem objLookup_map_update (m : HeaderMap) (k v k' : List Char) :
    objLookup (m.map (fun kv => if kv.1 = k then (k, v) else kv)) k' =
      if k' = k then (objLookup m k).map (fun _ => v) else objLookup m k' := by
  induction m with
  | nil => by_cases hk : k' = k <;> simp [objLookup, hk]
  | cons kv t ih =>
    by_cases h1 : kv.1 = k
    · by_cases h2 : k' = k
      · simp [objLookup, h1, h2, ih]
      · have hne : k ≠ k' := fun hc => h2 hc.symm
        simp [objLookup, h1, h2, hne, ih]
    · by_cases h3 : kv.1 = k'
      · simp only [List.map_cons, if_neg h1, objLookup, if_pos h3]
        have h2 : ¬ k' = k := fun hc => h1 (h3.trans hc)
        rw [if_neg h2]
      · simp only [List.map_cons, if_neg h1, objLookup, if_neg h3]
        exact ih

theorem objLookup_none_of_any_false {m : HeaderMap} {k : List Char}
    (h : m.any (fun kv => kv.1 = k) = false) : objLookup m k = none := by
  induction m with
  | nil => rfl
  | cons kv t ih =>
    simp only [List.any_cons, Bool.or_eq_false_iff] at h
    have h1 : kv.1 ≠ k := by simpa using h.1
    simp [objLookup, h1, ih h.2]

theorem objLookup_append_one (m : HeaderMap) (k v k' : List Char) :
    objLookup (m ++ [(k, v)]) k' =
      match objLookup m k' with
      | some w => some w
      | none => if k = k' then some v else none := by
  induction m with
  | nil => rfl
  | cons kv t ih =>
    by_cases h : kv.1 = k'
    · simp [objLookup, h]
    · simp only [List.cons_append, objLookup, if_neg h]
      exact ih

theorem objLookup_objSet (m : HeaderMap) (k v k' : List Char) :
    objLookup (objSet m k v) k' = if k' = k then some v else objLookup m k' := by
  unfold objSet
  by_cases hc : m.any (fun kv => kv.1 = k) = true
  · rw [if_pos hc, objLookup_map_update]
    by_cases hk : k' = k
    · rw [if_pos hk, if_pos hk]
      cases hl : objLookup m k with
      | none =>
        rw [objLookup_none_any_false hl] at hc
        simp at hc
      | some w => rfl
    · rw [if_neg hk, if_neg hk]
  · have hc' : m.any (fun kv => kv.1 = k) = false := by
      cases hb : m.any (fun kv => kv.1 = k) with
      | false => rfl
      | true => exact absurd hb hc
    rw [if_neg hc, objLookup_append_one]
    have hnone := objLookup_none_of_any_false hc'
    by_cases hk : k' = k
    · rw [if_pos hk, hk, hnone]
      simp
    · rw [if_neg hk]
      cases hl : objLookup m k' with
      | some w => rfl
      | none => rw [if_neg (fun hcc : k = k' => hk hcc.symm)]

theorem objLookup_spreadMerge (d h : HeaderMap) (k : List Char)
    (hnd : (h.map Prod.fst).Nodup) :
    objLookup (spreadMerge d h) k =
      match objLookup h k with
      | some v => some v
      | none => objLookup d k := by
  induction h generalizing d with
  | nil => rfl
  | cons kv t ih =>
    have hnd' : (t.map Prod.fst).Nodup := by
      simp only [List.map_cons, List.nodup_cons] at hnd
      exact hnd.2
    have hhead : kv.1 ∉ t.map Prod.fst := by
      simp only [List.map_cons, List.nodup_cons] at hnd
      exact hnd.1
    show objLookup (spreadMerge (objSet d kv.1 kv.2) t) k = _
    rw [ih (objSet d kv.1 kv.2) hnd']
    by_cases hk : k = kv.1
    · have ht : objLookup t k = none :=
        objLookup_eq_none_of_not_mem_keys (by rw [hk]; exact hhead)
      rw [ht]
      simp only [objLookup, if_pos (hk.symm ▸ rfl : kv.1 = k)]
      rw [objLookup_objSet, if_pos hk]
    · simp only [objLookup, if_neg (fun hc : kv.1 = k => hk hc.symm)]
      cases hlt : objLookup t k with
      | some w => rfl
      | none => rw [objLookup_objSet, if_neg hk]

/-- C9: for every client and per-call header set with distinct names, the
header set sent with a request is the merge of the per-call set over the
client defaults: a name present per-call maps to the per-call value, a name
present only in the defaults maps to the default value, and a name in
neither is not sent. -/
theorem mergeHeaders_per_call_wins (c : Client) (h : HeaderMap) (k : List Char)
    (hnd : (h.map Prod.fst).Nodup) :
    objLookup (mergeHeaders c h) k =
      match objLookup h k with
      | some v => some v
      | none => objLookup c.headers k :=
  objLookup_spreadMerge c.headers h k hnd

/-- C9 (witness): with defaults `Accept, Authorization` and a per-call
`Authorization`, the merged set serves the per-call Authorization value, the
default Accept value, and nothing under an absent name. -/
theorem mergeHeaders_per_call_wins_witness :
    objLookup (mergeHeaders
        (Client.mk "https://api.test".data
          [("Accept".data, "application/json".data),
           ("Authorization".data, "Bearer old".data)] none)
        [("Authorization".data, "Bearer new".data)]) "Authorization".data =
      some "Bearer new".data ∧
    objLookup (mergeHeaders
        (Client.mk "https://api.test".data
          [("Accept".data, "application/json".data),
           ("Authorization".data, "Bearer old".data)] none)
        [("Authorization".data, "Bearer new".data)]) "Accept".data =
      some "application/json".data ∧
    objLookup (mergeHeaders
        (Client.mk "https://api.test".data
          [("Accept".data, "application/json".data),
           ("Authorization".data, "Bearer old".data)] none)
        [("Authorization".data, "Bearer new".data)]) "X-Trace".data = none := by
  refine ⟨?_, ?_, ?_⟩
  · rw [mergeHeaders_per_call_wins _ _ _ (by decide)]
    decide
  · rw [mergeHeaders_per_call_wins _ _ _ (by decide)]
    decide
  · rw [mergeHeaders_per_call_wins _ _ _ (by decide)]
    decide

/-! ## Claim C10 -/

/-- C10: issuing a request never mutates the client's stored default header
set (nor its base URL): the per-call merge builds a fresh map, so after the
call the client state differs from the pre-call state at most in the
recorded last response. -/
theorem getRequest_defaults_frame (c : Client) (endpoint : List Char)
    (headers : HeaderMap) (respIx : Nat) :
    ((getRequest c endpoint headers respIx).2).headers = c.headers ∧
    ((getRequest c endpoint headers respIx).2).baseUrl = c.baseUrl ∧
    (getRequest c endpoint headers respIx).2 =
      { c with lastResponse := some respIx } := by
  exact ⟨rfl, rfl, rfl⟩

end Testoria
